import Mathlib

/-!
Verification development for the GStreamer WebRTC session controller
(`server/gstwebrtc.py`): a shallow embedding of its SDP post-processing
functions and of its session state machine, together with theorems that
settle the specification claims about it.

SDP texts are embedded as `List Char`; Python's substring operator `in`
is embedded as `containsStr`, `str.replace` as `replaceAll`, and the two
`re.sub` calls (whose patterns are the literal-plus-digit-run patterns
`apt=\d+` and `rtx-time=\d+`) as the dedicated scanners `aptSub` and
`rtxSub`, which walk the text left to right, rewrite the leftmost match
with a greedy digit run and continue after it, exactly as `re.sub` does.
-/

/-- Boolean prefix test on character lists: `isPre p t` holds when `p` is
an initial segment of `t`. -/
def isPre : List Char → List Char → Bool
  | [], _ => true
  | _ :: _, [] => false
  | a :: as, b :: bs => a == b && isPre as bs

/-- Boolean substring test on character lists, embedding Python's `in`
operator on `str` (`p in t`). -/
def containsStr (p : List Char) : List Char → Bool
  | [] => isPre p []
  | c :: cs => isPre p (c :: cs) || containsStr p cs

/-- Splits a greedy run of ASCII decimal digits off the front of a list,
embedding the greedy `\d+` part of the regex patterns: returns the digit
run and the remainder. -/
def takeDigits : List Char → List Char × List Char
  | [] => ([], [])
  | c :: cs =>
    if c.isDigit then
      let p := takeDigits cs
      (c :: p.1, p.2)
    else ([], c :: cs)

theorem takeDigits_append (l : List Char) :
    (takeDigits l).1 ++ (takeDigits l).2 = l := by
  induction l with
  | nil => rfl
  | cons c cs ih =>
    by_cases h : c.isDigit
    · simp [takeDigits, h, ih]
    · simp [takeDigits, h]

theorem takeDigits_snd_length (l : List Char) :
    (takeDigits l).2.length ≤ l.length := by
  induction l with
  | nil => simp [takeDigits]
  | cons c cs ih =>
    by_cases h : c.isDigit
    · simp only [takeDigits, h, if_true]
      exact Nat.le_succ_of_le ih
    · simp [takeDigits, h]

theorem takeDigits_fst_digits (l : List Char) :
    ∀ c ∈ (takeDigits l).1, c.isDigit = true := by
  induction l with
  | nil => simp [takeDigits]
  | cons c cs ih =>
    by_cases h : c.isDigit
    · simp only [takeDigits, h, if_true]
      intro d hd
      rcases List.mem_cons.mp hd with h1 | h1
      · exact h1 ▸ h
      · exact ih d h1
    · simp [takeDigits, h]

/-- The literal `"apt="` that anchors the pattern `apt=\d+`. -/
def aptTag : List Char := "apt=".data

/-- The replacement tail `";rtx-time=125"` that
`re.sub(r'(apt=\d+)', r'\1;rtx-time=125', sdp_text)` appends after each
match. -/
def rtxIns : List Char := ";rtx-time=125".data

/-- The literal `"rtx-time"` tested by `'rtx-time' not in sdp_text`. -/
def rtName : List Char := "rtx-time".data

/-- The literal `"rtx-time=125"`: the replacement text of
`re.sub(r'rtx-time=\d+', r'rtx-time=125', sdp_text)`, and also the
substring tested by `'rtx-time=125' not in sdp_text`. -/
def rtFull : List Char := "rtx-time=125".data

/-- The literal `"rtx-time="` that anchors the pattern `rtx-time=\d+`. -/
def rtHeader : List Char := "rtx-time=".data

/-- Embeds `re.sub(r'(apt=\d+)', r'\1;rtx-time=125', sdp_text)`:
scan left to right; at the leftmost position where `apt=` is followed by
at least one digit, keep the matched `apt=` and its greedy digit run,
append `";rtx-time=125"`, and continue scanning after the match. -/
def aptSub (t : List Char) : List Char :=
  match t with
  | [] => []
  | c :: cs =>
    if isPre aptTag (c :: cs) = true ∧ (takeDigits (List.drop 4 (c :: cs))).1 ≠ [] then
      aptTag ++ (takeDigits (List.drop 4 (c :: cs))).1 ++ rtxIns ++
        aptSub (takeDigits (List.drop 4 (c :: cs))).2
    else
      c :: aptSub cs
termination_by t.length
decreasing_by
  · have h1 := takeDigits_snd_length (List.drop 4 (c :: cs))
    have h2 := List.length_drop 4 (c :: cs)
    simp only [List.length_cons] at h1 h2 ⊢
    omega
  · simp only [List.length_cons]
    omega

/-- Counts the matches of the pattern `apt=\d+` in a text, with the same
left-to-right non-overlapping scan as `aptSub`. -/
def countApt (t : List Char) : Nat :=
  match t with
  | [] => 0
  | c :: cs =>
    if isPre aptTag (c :: cs) = true ∧ (takeDigits (List.drop 4 (c :: cs))).1 ≠ [] then
      1 + countApt (takeDigits (List.drop 4 (c :: cs))).2
    else
      countApt cs
termination_by t.length
decreasing_by
  · have h1 := takeDigits_snd_length (List.drop 4 (c :: cs))
    have h2 := List.length_drop 4 (c :: cs)
    simp only [List.length_cons] at h1 h2 ⊢
    omega
  · simp only [List.length_cons]
    omega

/-- Embeds `re.sub(r'rtx-time=\d+', r'rtx-time=125', sdp_text)`:
scan left to right; each leftmost `rtx-time=` followed by a greedy digit
run is rewritten to `rtx-time=125`, and scanning continues after the
match. -/
def rtxSub (t : List Char) : List Char :=
  match t with
  | [] => []
  | c :: cs =>
    if isPre rtHeader (c :: cs) = true ∧ (takeDigits (List.drop 9 (c :: cs))).1 ≠ [] then
      rtFull ++ rtxSub (takeDigits (List.drop 9 (c :: cs))).2
    else
      c :: rtxSub cs
termination_by t.length
decreasing_by
  · have h1 := takeDigits_snd_length (List.drop 9 (c :: cs))
    have h2 := List.length_drop 9 (c :: cs)
    simp only [List.length_cons] at h1 h2 ⊢
    omega
  · simp only [List.length_cons]
    omega

/-- Counts the matches of the pattern `rtx-time=\d+`, with the same scan
as `rtxSub`. -/
def countRtx (t : List Char) : Nat :=
  match t with
  | [] => 0
  | c :: cs =>
    if isPre rtHeader (c :: cs) = true ∧ (takeDigits (List.drop 9 (c :: cs))).1 ≠ [] then
      1 + countRtx (takeDigits (List.drop 9 (c :: cs))).2
    else
      countRtx cs
termination_by t.length
decreasing_by
  · have h1 := takeDigits_snd_length (List.drop 9 (c :: cs))
    have h2 := List.length_drop 9 (c :: cs)
    simp only [List.length_cons] at h1 h2 ⊢
    omega
  · simp only [List.length_cons]
    omega

/-- The `rtx-time` block of `__on_offer_created` (lines 217-222 of
`gstwebrtc.py`):
`if 'rtx-time' not in sdp_text: sdp_text = re.sub(r'(apt=\d+)', r'\1;rtx-time=125', sdp_text)`
`elif 'rtx-time=125' not in sdp_text: sdp_text = re.sub(r'rtx-time=\d+', r'rtx-time=125', sdp_text)`. -/
def rtxStep (t : List Char) : List Char :=
  if containsStr rtName t = false then aptSub t
  else if containsStr rtFull t = false then rtxSub t
  else t

/-- Embeds Python `str.replace(p, r)` for a nonempty pattern `p`: scan
left to right, rewriting each leftmost non-overlapping occurrence of `p`
to `r` and continuing after it. -/
def replaceAll (p r : List Char) (t : List Char) : List Char :=
  match t with
  | [] => []
  | c :: cs =>
    if isPre p (c :: cs) = true then
      r ++ replaceAll p r (List.drop (p.length - 1) cs)
    else
      c :: replaceAll p r cs
termination_by t.length
decreasing_by
  · have h2 := List.length_drop (p.length - 1) cs
    simp only [List.length_cons]
    omega
  · simp only [List.length_cons]
    omega

/-- Counts the leftmost non-overlapping occurrences of a nonempty
pattern in a text (the notion of occurrence used by Python's `str.count`
and by `str.replace`). -/
def countStr (p : List Char) (t : List Char) : Nat :=
  match t with
  | [] => 0
  | c :: cs =>
    if isPre p (c :: cs) = true then
      1 + countStr p (List.drop (p.length - 1) cs)
    else
      countStr p cs
termination_by t.length
decreasing_by
  · have h2 := List.length_drop (p.length - 1) cs
    simp only [List.length_cons]
    omega
  · simp only [List.length_cons]
    omega

/-- Erases every leftmost non-overlapping occurrence of a pattern:
`str.replace(p, '')`. -/
def removeAll (p : List Char) (t : List Char) : List Char :=
  replaceAll p [] t

/-- Structural variant of `replaceAll` used only to evaluate it on closed
inputs: `replaceAllAux p r s t = replaceAll p r (t.drop s)`. -/
def replaceAllAux (p r : List Char) (s : Nat) : List Char → List Char
  | [] => []
  | c :: cs =>
    match s with
    | s' + 1 => replaceAllAux p r s' cs
    | 0 =>
      if isPre p (c :: cs) = true then
        r ++ replaceAllAux p r (p.length - 1) cs
      else
        c :: replaceAllAux p r 0 cs

/-- Structural variant of `countStr` used only to evaluate it on closed
inputs. -/
def countStrAux (p : List Char) (s : Nat) : List Char → Nat
  | [] => 0
  | c :: cs =>
    match s with
    | s' + 1 => countStrAux p s' cs
    | 0 =>
      if isPre p (c :: cs) = true then
        1 + countStrAux p (p.length - 1) cs
      else
        countStrAux p 0 cs

theorem replaceAllAux_eq (p r : List Char) :
    ∀ (t : List Char) (s : Nat), replaceAllAux p r s t = replaceAll p r (List.drop s t) := by
  intro t
  induction t with
  | nil => intro s; simp [replaceAllAux, replaceAll]
  | cons c cs ih =>
    intro s
    match s with
    | s' + 1 => simp only [replaceAllAux, List.drop_succ_cons]; exact ih s'
    | 0 =>
      simp only [replaceAllAux, List.drop_zero]
      by_cases h : isPre p (c :: cs) = true
      · rw [replaceAll]
        simp only [h, if_true, ih (p.length - 1)]
      · rw [replaceAll]
        simp [h, ih 0]

theorem countStrAux_eq (p : List Char) :
    ∀ (t : List Char) (s : Nat), countStrAux p s t = countStr p (List.drop s t) := by
  intro t
  induction t with
  | nil => intro s; simp [countStrAux, countStr]
  | cons c cs ih =>
    intro s
    match s with
    | s' + 1 => simp only [countStrAux, List.drop_succ_cons]; exact ih s'
    | 0 =>
      simp only [countStrAux, List.drop_zero]
      by_cases h : isPre p (c :: cs) = true
      · rw [countStr]
        simp only [h, if_true, ih (p.length - 1)]
      · rw [countStr]
        simp [h, ih 0]

/-- Structural test for the existence of a match of `apt=\d+` (used to
state when `aptSub` is the identity). -/
def hasApt : List Char → Bool
  | [] => false
  | c :: cs =>
    (isPre aptTag (c :: cs) && !(takeDigits (List.drop 4 (c :: cs))).1.isEmpty) || hasApt cs

/-- Structural test for the existence of a match of `rtx-time=\d+`. -/
def hasRtx : List Char → Bool
  | [] => false
  | c :: cs =>
    (isPre rtHeader (c :: cs) && !(takeDigits (List.drop 9 (c :: cs))).1.isEmpty) || hasRtx cs

/-- The literal `"packetization-mode=1"`: the pattern of both `str.replace`
calls of the H.264 block. -/
def pm1 : List Char := "packetization-mode=1".data

/-- The replacement `"profile-level-id=42e01f;packetization-mode=1"`. -/
def profRepl : List Char := "profile-level-id=42e01f;packetization-mode=1".data

/-- The replacement `"level-asymmetry-allowed=1;packetization-mode=1"`. -/
def asymRepl : List Char := "level-asymmetry-allowed=1;packetization-mode=1".data

/-- The literal `"profile-level-id"` tested by
`'profile-level-id' not in sdp_text`. -/
def profKey : List Char := "profile-level-id".data

/-- The literal `"level-asymmetry-allowed"` tested by
`'level-asymmetry-allowed' not in sdp_text`. -/
def asymKey : List Char := "level-asymmetry-allowed".data

/-- First `if` of the H.264 block (lines 227-229):
`if 'profile-level-id' not in sdp_text: sdp_text = sdp_text.replace('packetization-mode=1', 'profile-level-id=42e01f;packetization-mode=1')`. -/
def profInject (t : List Char) : List Char :=
  if containsStr profKey t = true then t else replaceAll pm1 profRepl t

/-- Second `if` of the H.264 block (lines 230-232):
`if 'level-asymmetry-allowed' not in sdp_text: sdp_text = sdp_text.replace('packetization-mode=1', 'level-asymmetry-allowed=1;packetization-mode=1')`. -/
def asymInject (t : List Char) : List Char :=
  if containsStr asymKey t = true then t else replaceAll pm1 asymRepl t

/-- The guarded H.264 block (lines 226-232), given a non-`None` encoder
string: `if '264' in self.encoder:` followed by the two injections. -/
def h264Step (encoder : List Char) (t : List Char) : List Char :=
  if containsStr "264".data encoder = true then asymInject (profInject t) else t

/-- The distinct failure classes of the controller.  The source raises
`GSTWebRTCAppError` at four distinct sites and Python itself raises
`TypeError` at a fifth; the constructors carry the spec's taxonomy names
for those sites. -/
inductive AppError where
  /-- `'Received SDP before session started'` and
  `'Received ICE before session started'`: an SDP or ICE operation before
  the transport element exists (the spec's `InvalidStateError`). -/
  | invalidStateError : AppError
  /-- `'ERROR: sdp type was not "answer"'` (the spec's `ProtocolError`). -/
  | protocolError : AppError
  /-- `'Missing gstreamer plugins:'` with the missing-name list
  (the spec's `ConfigurationError`). -/
  | configurationError (missing : List (List Char)) : AppError
  /-- `'Failed to transition pipeline to PLAYING'` (the spec's
  `PipelineStateError`). -/
  | pipelineStateError : AppError
  /-- Python's `TypeError` from evaluating `'264' in self.encoder` when
  `self.encoder` is `None`. -/
  | typeError : AppError
deriving DecidableEq, Repr

/-- Observable interactions of the controller with the engine and the
host application. -/
inductive Event where
  | createPipeline
  | createWebrtcbin
  | addTransceiver
  | setStatePlaying
  | setLocalDescription
  | onSdp (sdpType : List Char) (text : List Char)
  | setRemoteDescription
  | addIceCandidate (mlineindex : Nat) (candidate : List Char)
  | releasePipeline
  | releaseWebrtcbin
  | releaseFakesink
  | errorRaised (e : AppError)
deriving DecidableEq, Repr

/-- The mutable session fields of `GSTWebRTCApp` that the claims are
about.  A `true` handle field models a handle that is not `None`. -/
structure AppState where
  pipeline : Bool
  webrtcbin : Bool
  fakesink : Bool
  encoder : Option (List Char)
deriving DecidableEq, Repr

/-- The field state established by `__init__` (lines 57-80): every handle
`None`, the encoder as supplied (its default is `None`). -/
def initialState (encoder : Option (List Char)) : AppState :=
  { pipeline := false, webrtcbin := false, fakesink := false, encoder := encoder }

/-- The `required` plugin list of `check_plugins` (lines 133-134). -/
def requiredPlugins : List (List Char) :=
  ["opus".data, "nice".data, "webrtc".data, "dtls".data, "srtp".data, "rtp".data,
   "sctp".data, "rtpmanager".data]

/-- `check_plugins` (lines 126-149) against a registry given as the list
of plugin names that `Gst.Registry.get().find_plugin` can resolve:
collects the missing required names and fails with `ConfigurationError`
carrying exactly that list when it is nonempty. -/
def check_plugins (registry : List (List Char)) : Option AppError :=
  let missing := requiredPlugins.filter (fun p => !registry.contains p)
  if missing.isEmpty then none else some (AppError.configurationError missing)

/-- `__init__` (lines 45-80): records the constructor arguments, leaves
every handle `None`, and runs `check_plugins`; a missing plugin aborts
construction before any pipeline element is created. -/
def initApp (registry : List (List Char)) (encoder : Option (List Char)) :
    Except AppError AppState :=
  match check_plugins registry with
  | some e => .error e
  | none => .ok (initialState encoder)

/-- `start_pipeline` (lines 346-369): creates the pipeline container,
builds the webrtcbin graph (`build_webrtcbin_pipeline`, lines 83-122,
and `build_webcam_video_pipeline`, lines 261-286), then transitions the
pipeline to PLAYING, failing with `PipelineStateError` when the engine
does not report success (`stateOk` is the engine's reported result).
The handle fields stay assigned even on failure, as in the source, where
the exception is raised after the assignments. -/
def start_pipeline (s : AppState) (stateOk : Bool) :
    AppState × List Event × Option AppError :=
  let s' := { s with pipeline := true, webrtcbin := true }
  let evs := [Event.createPipeline, Event.createWebrtcbin, Event.addTransceiver,
    Event.setStatePlaying]
  (s', evs, if stateOk then none else some AppError.pipelineStateError)

/-- The session startup entry: constructing the controller (which is
where `check_plugins` runs) followed by `start_pipeline`.  The first
component lists the engine interactions that happened; a
`ConfigurationError` aborts the entry before any of them. -/
def startEntry (registry : List (List Char)) (encoder : Option (List Char))
    (stateOk : Bool) : List Event × Except AppError AppState :=
  match initApp registry encoder with
  | .error e => ([], .error e)
  | .ok s =>
    let (s', evs, err) := start_pipeline s stateOk
    match err with
    | some e => (evs, .error e)
    | none => (evs, .ok s')

/-- `set_sdp` (lines 151-174).  Raising is modeled as an `errorRaised`
event with no engine interaction; on success the parsed answer is
applied through the `set-remote-description` signal. -/
def set_sdp (s : AppState) (sdpType : List Char) (sdp : List Char) : List Event :=
  if s.webrtcbin = false then [Event.errorRaised AppError.invalidStateError]
  else if sdpType ≠ "answer".data then [Event.errorRaised AppError.protocolError]
  else [Event.setRemoteDescription]

/-- `set_ice` (lines 176-192): before the transport element exists it
raises; otherwise it forwards the pair to the engine unconditionally
through the `add-ice-candidate` signal. -/
def set_ice (s : AppState) (mlineindex : Nat) (candidate : List Char) : List Event :=
  if s.webrtcbin = false then [Event.errorRaised AppError.invalidStateError]
  else [Event.addIceCandidate mlineindex candidate]

/-- The SDP post-processing of `__on_offer_created` (lines 215-232): the
`rtx-time` block runs first, then the H.264 block guarded by
`'264' in self.encoder` — which in Python raises `TypeError` when the
encoder is `None`. -/
def processOffer (encoder : Option (List Char)) (t : List Char) :
    Except AppError (List Char) :=
  let t1 := rtxStep t
  match encoder with
  | none => .error AppError.typeError
  | some e => .ok (h264Step e t1)

/-- `__on_offer_created` (lines 195-233): applies the generated offer as
the local description, post-processes the SDP text, and only then hands
the processed text to the host's `on_sdp` hook; a post-processing
failure happens after `set-local-description` and suppresses the
`on_sdp` emission. -/
def on_offer_created (s : AppState) (sdp : List Char) : List Event :=
  match processOffer s.encoder sdp with
  | .error e => [Event.setLocalDescription, Event.errorRaised e]
  | .ok t => [Event.setLocalDescription, Event.onSdp "offer".data t]

/-- `stop_pipeline` (lines 446-463): each owned handle that is still
present is transitioned to NULL, unparented and set to `None` — the
pipeline container first, then the webrtcbin transport element, then the
fakesink discard sink.  Each `release` event stands for that
set-state/unparent/clear sequence on one handle. -/
def stop_pipeline (s : AppState) : AppState × List Event :=
  let (s1, e1) :=
    if s.pipeline then ({ s with pipeline := false }, [Event.releasePipeline])
    else (s, [])
  let (s2, e2) :=
    if s1.webrtcbin then ({ s1 with webrtcbin := false }, [Event.releaseWebrtcbin])
    else (s1, [])
  let (s3, e3) :=
    if s2.fakesink then ({ s2 with fakesink := false }, [Event.releaseFakesink])
    else (s2, [])
  (s3, e1 ++ e2 ++ e3)

/-- Host-level actions that can drive the controller. -/
inductive HostAction where
  | start (stateOk : Bool)
  | offerCreated (sdp : List Char)
  | setRemoteSdp (sdpType : List Char) (sdp : List Char)
  | addIce (mlineindex : Nat) (candidate : List Char)
  | stop
deriving DecidableEq, Repr

/-- One controller step: dispatches an action to the embedded operation,
pairing the successor state with the emitted events. -/
def step (s : AppState) : HostAction → AppState × List Event
  | .start ok =>
    let (s', evs, err) := start_pipeline s ok
    (s', evs ++ (match err with | some e => [Event.errorRaised e] | none => []))
  | .offerCreated sdp => (s, on_offer_created s sdp)
  | .setRemoteSdp ty sdp => (s, set_sdp s ty sdp)
  | .addIce m c => (s, set_ice s m c)
  | .stop => stop_pipeline s

/-- Runs a sequence of actions from a state, accumulating the events. -/
def runTrace (s : AppState) : List HostAction → AppState × List Event
  | [] => (s, [])
  | a :: rest =>
    let (s', evs) := step s a
    let (s'', evs') := runTrace s' rest
    (s'', evs ++ evs')

theorem isPre_iff (p : List Char) : ∀ t, isPre p t = true ↔ ∃ u, t = p ++ u := by
  induction p with
  | nil => intro t; simp [isPre]
  | cons a as ih =>
    intro t
    cases t with
    | nil => simp [isPre]
    | cons b bs => simp [isPre, ih bs, eq_comm (a := a) (b := b)]

theorem containsStr_iff (p : List Char) :
    ∀ t, containsStr p t = true ↔ ∃ u v, t = u ++ p ++ v := by
  intro t
  induction t with
  | nil =>
    simp only [containsStr, isPre_iff]
    constructor
    · rintro ⟨u, hu⟩
      exact ⟨[], u, hu⟩
    · rintro ⟨u, v, huv⟩
      have hu : u = [] := by
        cases u with
        | nil => rfl
        | cons x xs => simp at huv
      subst hu
      exact ⟨v, by simpa using huv⟩
  | cons c cs ih =>
    simp only [containsStr, Bool.or_eq_true, isPre_iff, ih]
    constructor
    · rintro (⟨u, hu⟩ | ⟨u, v, huv⟩)
      · exact ⟨[], u, by simpa using hu⟩
      · exact ⟨c :: u, v, by simp [huv]⟩
    · rintro ⟨u, v, huv⟩
      cases u with
      | nil => exact Or.inl ⟨v, by simpa using huv⟩
      | cons x xs =>
        simp only [List.cons_append, List.cons.injEq] at huv
        exact Or.inr ⟨xs, v, huv.2⟩

theorem isPre_length {p t : List Char} (h : isPre p t = true) : p.length ≤ t.length := by
  obtain ⟨u, hu⟩ := (isPre_iff p t).mp h
  subst hu
  simp

theorem isPre_trans {a b c : List Char} (h1 : isPre a b = true) (h2 : isPre b c = true) :
    isPre a c = true := by
  obtain ⟨u, hu⟩ := (isPre_iff a b).mp h1
  obtain ⟨v, hv⟩ := (isPre_iff b c).mp h2
  exact (isPre_iff a c).mpr ⟨u ++ v, by simp [hv, hu]⟩

theorem isPre_refl_append (r y : List Char) : isPre r (r ++ y) = true :=
  (isPre_iff r (r ++ y)).mpr ⟨y, rfl⟩

theorem isPre_append_restrict {q x y : List Char} (h : isPre q (x ++ y) = true)
    (hlen : q.length ≤ x.length) : isPre q x = true := by
  obtain ⟨u, hu⟩ := (isPre_iff q (x ++ y)).mp h
  refine (isPre_iff q x).mpr ⟨x.drop q.length, ?_⟩
  have hq : q = x.take q.length := by
    have := congrArg (List.take q.length) hu
    simpa [List.take_append_of_le_length hlen, List.take_left] using this.symm
  calc x = x.take q.length ++ x.drop q.length := (List.take_append_drop _ x).symm
    _ = q ++ x.drop q.length := by rw [← hq]

theorem isPre_decomp {p t : List Char} (h : isPre p t = true) :
    t = p ++ t.drop p.length := by
  obtain ⟨u, hu⟩ := (isPre_iff p t).mp h
  subst hu
  simp

theorem contains_of_isPre {p t : List Char} (h : isPre p t = true) :
    containsStr p t = true := by
  obtain ⟨u, hu⟩ := (isPre_iff p t).mp h
  exact (containsStr_iff p t).mpr ⟨[], u, by simpa using hu⟩

theorem contains_cons_of_tail {p : List Char} {c : Char} {cs : List Char}
    (h : containsStr p cs = true) : containsStr p (c :: cs) = true := by
  simp [containsStr, h]

theorem contains_cons_false {p : List Char} {c : Char} {cs : List Char}
    (h : containsStr p (c :: cs) = false) :
    isPre p (c :: cs) = false ∧ containsStr p cs = false := by
  simpa [containsStr] using h

theorem contains_append_right {k y : List Char} (x : List Char)
    (h : containsStr k y = true) : containsStr k (x ++ y) = true := by
  obtain ⟨u, v, huv⟩ := (containsStr_iff k y).mp h
  exact (containsStr_iff k (x ++ y)).mpr ⟨x ++ u, v, by simp [huv]⟩

theorem contains_mono_pre {k r t : List Char} (hkr : isPre k r = true)
    (h : containsStr r t = true) : containsStr k t = true := by
  obtain ⟨u, v, huv⟩ := (containsStr_iff r t).mp h
  obtain ⟨w, hw⟩ := (isPre_iff k r).mp hkr
  exact (containsStr_iff k t).mpr ⟨u, w ++ v, by simp [huv, hw]⟩

theorem contains_drop_false {k t : List Char} (h : containsStr k t = false) (n : Nat) :
    containsStr k (t.drop n) = false := by
  by_contra hc
  have hc' : containsStr k (t.drop n) = true := by
    cases hx : containsStr k (t.drop n)
    · exact absurd hx hc
    · rfl
  have : containsStr k t = true := by
    have := contains_append_right (t.take n) hc'
    rwa [List.take_append_drop] at this
  rw [this] at h
  exact absurd h (by simp)

theorem drop_headD_cons {l : List Char} {j : Nat} (h : j < l.length) :
    l.drop j = (l.drop j).headD ' ' :: l.drop (j + 1) := by
  cases hq : l.drop j with
  | nil =>
    have := List.length_drop j l
    rw [hq] at this
    simp at this
    omega
  | cons a as =>
    have : l.drop (j + 1) = (l.drop j).drop 1 := by
      rw [List.drop_drop]
    rw [this, hq]
    simp

theorem countStr_nil (p : List Char) : countStr p [] = 0 := by rw [countStr]

theorem countStr_cons_pos {p : List Char} {c : Char} {cs : List Char}
    (h : isPre p (c :: cs) = true) :
    countStr p (c :: cs) = 1 + countStr p (cs.drop (p.length - 1)) := by
  rw [countStr]
  simp [h]

theorem countStr_cons_neg {p : List Char} {c : Char} {cs : List Char}
    (h : isPre p (c :: cs) = false) :
    countStr p (c :: cs) = countStr p cs := by
  rw [countStr]
  simp [h]

theorem replaceAll_nil (p r : List Char) : replaceAll p r [] = [] := by rw [replaceAll]

theorem replaceAll_cons_pos {p : List Char} {c : Char} {cs : List Char} (r : List Char)
    (h : isPre p (c :: cs) = true) :
    replaceAll p r (c :: cs) = r ++ replaceAll p r (cs.drop (p.length - 1)) := by
  rw [replaceAll]
  simp [h]

theorem replaceAll_cons_neg {p : List Char} {c : Char} {cs : List Char} (r : List Char)
    (h : isPre p (c :: cs) = false) :
    replaceAll p r (c :: cs) = c :: replaceAll p r cs := by
  rw [replaceAll]
  simp [h]

theorem countStr_sep {r : List Char} (hr : r ≠ []) (y : List Char) :
    countStr r (r ++ y) = 1 + countStr r y := by
  cases r with
  | nil => exact absurd rfl hr
  | cons a as =>
    have h := isPre_refl_append (a :: as) y
    rw [List.cons_append] at h ⊢
    rw [countStr_cons_pos h]
    congr 1
    have hd : (as ++ y).drop ((a :: as).length - 1) = y := by
      simp only [List.length_cons, Nat.add_sub_cancel]
      exact List.drop_left as y
    rw [hd]

theorem replaceAll_sep {p : List Char} (hp : p ≠ []) (r y : List Char) :
    replaceAll p r (p ++ y) = r ++ replaceAll p r y := by
  cases p with
  | nil => exact absurd rfl hp
  | cons a as =>
    have h := isPre_refl_append (a :: as) y
    rw [List.cons_append] at h ⊢
    rw [replaceAll_cons_pos r h]
    congr 1
    have hd : (as ++ y).drop ((a :: as).length - 1) = y := by
      simp only [List.length_cons, Nat.add_sub_cancel]
      exact List.drop_left as y
    rw [hd]

theorem countStr_block {r : List Char} :
    ∀ (x y : List Char), (∀ i, i < x.length → isPre r (x.drop i ++ y) = false) →
      countStr r (x ++ y) = countStr r y := by
  intro x
  induction x with
  | nil => intro y _; simp
  | cons c x' ih =>
    intro y h
    have h0 : isPre r (c :: (x' ++ y)) = false := by
      have := h 0 (by simp)
      simpa using this
    rw [List.cons_append, countStr_cons_neg h0]
    refine ih y (fun i hi => ?_)
    have := h (i + 1) (by simpa using Nat.succ_lt_succ hi)
    simpa [List.drop_succ_cons] using this

theorem replaceAll_block {p r : List Char} :
    ∀ (x y : List Char), (∀ i, i < x.length → isPre p (x.drop i ++ y) = false) →
      replaceAll p r (x ++ y) = x ++ replaceAll p r y := by
  intro x
  induction x with
  | nil => intro y _; simp
  | cons c x' ih =>
    intro y h
    have h0 : isPre p (c :: (x' ++ y)) = false := by
      have := h 0 (by simp)
      simpa using this
    have h' : ∀ i, i < x'.length → isPre p (x'.drop i ++ y) = false := fun i hi => by
      have := h (i + 1) (by simpa using Nat.succ_lt_succ hi)
      simpa [List.drop_succ_cons] using this
    rw [List.cons_append, replaceAll_cons_neg r h0, ih y h']
    rfl

theorem isPre_cons_drop_ne {k : Char} {ks x : List Char}
    (hx : ∀ c ∈ x, c ≠ k) (y : List Char) :
    ∀ i, i < x.length → isPre (k :: ks) (x.drop i ++ y) = false := by
  intro i hi
  have hne : x.drop i ≠ [] := by
    intro hnil
    have hlen := List.length_drop i x
    rw [hnil] at hlen
    simp at hlen
    omega
  obtain ⟨d, ds, hd⟩ := List.exists_cons_of_ne_nil hne
  have hdm : d ∈ x := List.drop_subset i x (hd ▸ List.mem_cons_self d ds)
  rw [hd, List.cons_append]
  show (k == d && isPre ks (ds ++ y)) = false
  have hkd : (k == d) = false := by
    rw [beq_eq_false_iff_ne]
    exact fun he => hx d hdm he.symm
  simp [hkd]

theorem digit_ne_semicolon {c : Char} (h : c.isDigit = true) : c ≠ ';' := by
  intro he
  rw [he] at h
  exact absurd h (by decide)

theorem isPre_drop_replaceAll {k p r : List Char} (hkr : isPre k r = true)
    (hcross : ∀ j, j < k.length → 1 ≤ j → isPre (k.drop j) r = false) :
    ∀ t j, 1 ≤ j → j < k.length → isPre (k.drop j) (replaceAll p r t) = true →
      isPre (k.drop j) t = true := by
  intro t
  induction t using replaceAll.induct p r with
  | case1 =>
    intro j _ hj hpre
    rw [replaceAll_nil] at hpre
    have : (k.drop j).length ≤ 0 := isPre_length hpre
    rw [List.length_drop] at this
    omega
  | case2 c cs h ih =>
    intro j hj1 hj2 hpre
    exfalso
    rw [replaceAll_cons_pos r h] at hpre
    have hlen : (k.drop j).length ≤ r.length := by
      have := isPre_length hkr
      rw [List.length_drop]
      omega
    have := isPre_append_restrict hpre hlen
    rw [hcross j hj2 hj1] at this
    exact absurd this (by simp)
  | case3 c cs h ih =>
    intro j hj1 hj2 hpre
    rw [replaceAll_cons_neg r (by simpa using h)] at hpre
    rw [drop_headD_cons hj2] at hpre ⊢
    have hsplit : ((k.drop j).headD ' ' == c) = true ∧
        isPre (k.drop (j + 1)) (replaceAll p r cs) = true := by
      simpa [isPre] using hpre
    by_cases hj3 : j + 1 < k.length
    · have hih := ih (j + 1) (by omega) hj3 hsplit.2
      show ((k.drop j).headD ' ' == c && isPre (k.drop (j + 1)) cs) = true
      rw [hsplit.1, hih]
      rfl
    · have hnil : k.drop (j + 1) = [] := by
        have hl := List.length_drop (j + 1) k
        have hz : (k.drop (j + 1)).length = 0 := by omega
        exact List.length_eq_zero.mp hz
      show ((k.drop j).headD ' ' == c && isPre (k.drop (j + 1)) cs) = true
      rw [hnil]
      show ((k.drop j).headD ' ' == c && true) = true
      rw [Bool.and_true]
      exact hsplit.1

theorem countStr_replaceAll {k p r : List Char} (hk : k ≠ []) (hkr : isPre k r = true)
    (hcross : ∀ j, j < k.length → 1 ≤ j → isPre (k.drop j) r = false) :
    ∀ t, containsStr k t = false → countStr r (replaceAll p r t) = countStr p t := by
  have hr : r ≠ [] := by
    intro hre
    rw [hre] at hkr
    have hlen := isPre_length hkr
    simp only [List.length_nil, Nat.le_zero, List.length_eq_zero] at hlen
    exact hk hlen
  intro t
  induction t using replaceAll.induct p r with
  | case1 =>
    intro _
    rw [replaceAll_nil, countStr_nil, countStr_nil]
  | case2 c cs h ih =>
    intro ht
    rw [replaceAll_cons_pos r h, countStr_sep hr, countStr_cons_pos h]
    have ht' : containsStr k (cs.drop (p.length - 1)) = false := by
      have := contains_drop_false (contains_cons_false ht).2 (p.length - 1)
      exact this
    rw [ih ht']
  | case3 c cs h ih =>
    intro ht
    have h' : isPre p (c :: cs) = false := by simpa using h
    have hnopre : isPre r (c :: replaceAll p r cs) = false := by
      by_contra hcon
      have hr1 : isPre r (c :: replaceAll p r cs) = true := by
        cases hx : isPre r (c :: replaceAll p r cs)
        · exact absurd hx hcon
        · rfl
      have hk1 : isPre k (c :: replaceAll p r cs) = true := isPre_trans hkr hr1
      cases k with
      | nil => exact hk rfl
      | cons k0 k' =>
        have hsplit : (k0 == c) = true ∧ isPre k' (replaceAll p r cs) = true := by
          simpa [isPre] using hk1
        cases k' with
        | nil =>
          have : isPre (k0 :: []) (c :: cs) = true := by simp [isPre, hsplit.1]
          have := contains_of_isPre this
          rw [this] at ht
          exact absurd ht (by simp)
        | cons k1 k'' =>
          have hlen : 1 < (k0 :: k1 :: k'').length := by simp
          have hd1 : (k0 :: k1 :: k'').drop 1 = k1 :: k'' := rfl
          have := isPre_drop_replaceAll hkr hcross cs 1 (by omega) hlen
            (by rw [hd1]; exact hsplit.2)
          rw [hd1] at this
          have hkfull : isPre (k0 :: k1 :: k'') (c :: cs) = true := by
            simp [isPre, hsplit.1, this]
          have := contains_of_isPre hkfull
          rw [this] at ht
          exact absurd ht (by simp)
    rw [replaceAll_cons_neg r h', countStr_cons_neg hnopre, countStr_cons_neg h']
    exact ih (contains_cons_false ht).2

theorem beq_true_of_ne_false {b : Bool} (h : ¬b = false) : b = true := by
  cases b
  · exact absurd rfl h
  · rfl

theorem contains_append_right_false {k a b : List Char}
    (h : containsStr k (a ++ b) = false) : containsStr k b = false := by
  cases hx : containsStr k b
  · rfl
  · have := contains_append_right a hx
    rw [this] at h
    exact absurd h (by simp)

theorem aptSub_nil : aptSub [] = [] := by rw [aptSub]

theorem aptSub_cons_pos {c : Char} {cs : List Char}
    (h : isPre aptTag (c :: cs) = true ∧ (takeDigits (List.drop 4 (c :: cs))).1 ≠ []) :
    aptSub (c :: cs) = aptTag ++ (takeDigits (List.drop 4 (c :: cs))).1 ++ rtxIns ++
      aptSub (takeDigits (List.drop 4 (c :: cs))).2 := by
  rw [aptSub]
  simp only [if_pos h]

theorem aptSub_cons_neg {c : Char} {cs : List Char}
    (h : ¬(isPre aptTag (c :: cs) = true ∧ (takeDigits (List.drop 4 (c :: cs))).1 ≠ [])) :
    aptSub (c :: cs) = c :: aptSub cs := by
  rw [aptSub]
  simp only [if_neg h]

theorem countApt_nil : countApt [] = 0 := by rw [countApt]

theorem countApt_cons_pos {c : Char} {cs : List Char}
    (h : isPre aptTag (c :: cs) = true ∧ (takeDigits (List.drop 4 (c :: cs))).1 ≠ []) :
    countApt (c :: cs) = 1 + countApt (takeDigits (List.drop 4 (c :: cs))).2 := by
  rw [countApt]
  simp only [if_pos h]

theorem countApt_cons_neg {c : Char} {cs : List Char}
    (h : ¬(isPre aptTag (c :: cs) = true ∧ (takeDigits (List.drop 4 (c :: cs))).1 ≠ [])) :
    countApt (c :: cs) = countApt cs := by
  rw [countApt]
  simp only [if_neg h]

theorem rtxSub_nil : rtxSub [] = [] := by rw [rtxSub]

theorem rtxSub_cons_pos {c : Char} {cs : List Char}
    (h : isPre rtHeader (c :: cs) = true ∧ (takeDigits (List.drop 9 (c :: cs))).1 ≠ []) :
    rtxSub (c :: cs) = rtFull ++ rtxSub (takeDigits (List.drop 9 (c :: cs))).2 := by
  rw [rtxSub]
  simp only [if_pos h]

theorem rtxSub_cons_neg {c : Char} {cs : List Char}
    (h : ¬(isPre rtHeader (c :: cs) = true ∧ (takeDigits (List.drop 9 (c :: cs))).1 ≠ [])) :
    rtxSub (c :: cs) = c :: rtxSub cs := by
  rw [rtxSub]
  simp only [if_neg h]

theorem rtName_len : rtName.length = 8 := by decide

theorem rtFull_len : rtFull.length = 12 := by decide

theorem rtFull_drop_ne_a : ∀ j, j < 8 → ((rtFull.drop j).headD ' ' == 'a') = false := by decide

theorem rtFull_rtName_headD :
    ∀ j, j < 8 → (rtFull.drop j).headD ' ' = (rtName.drop j).headD ' ' := by decide

theorem isPre_drop_aptSub :
    ∀ t j, j < rtName.length → isPre (rtFull.drop j) (aptSub t) = true →
      isPre (rtName.drop j) t = true := by
  intro t
  induction t using aptSub.induct with
  | case1 =>
    intro j hj hpre
    rw [aptSub_nil] at hpre
    have hlen := isPre_length hpre
    rw [List.length_drop, rtFull_len] at hlen
    rw [rtName_len] at hj
    simp at hlen
    omega
  | case2 c cs h ih =>
    intro j hj hpre
    exfalso
    rw [aptSub_cons_pos h] at hpre
    have ha : aptSub (takeDigits (List.drop 4 (c :: cs))).2 = aptSub (takeDigits (List.drop 4 (c :: cs))).2 := rfl
    rw [show aptTag ++ (takeDigits (List.drop 4 (c :: cs))).1 ++ rtxIns ++
        aptSub (takeDigits (List.drop 4 (c :: cs))).2 =
        'a' :: (['p', 't', '='] ++ ((takeDigits (List.drop 4 (c :: cs))).1 ++ rtxIns ++
          aptSub (takeDigits (List.drop 4 (c :: cs))).2)) from rfl] at hpre
    rw [rtName_len] at hj
    rw [drop_headD_cons (l := rtFull) (by rw [rtFull_len]; omega)] at hpre
    have hsplit : ((rtFull.drop j).headD ' ' == 'a') = true := by
      have := hpre
      simp only [isPre, Bool.and_eq_true] at this
      exact this.1
    rw [rtFull_drop_ne_a j hj] at hsplit
    exact absurd hsplit (by simp)
  | case3 c cs h ih =>
    intro j hj hpre
    rw [aptSub_cons_neg h] at hpre
    rw [rtName_len] at hj
    rw [drop_headD_cons (l := rtFull) (by rw [rtFull_len]; omega)] at hpre
    have hsplit : ((rtFull.drop j).headD ' ' == c) = true ∧
        isPre (rtFull.drop (j + 1)) (aptSub cs) = true := by
      simpa [isPre] using hpre
    rw [drop_headD_cons (l := rtName) (by rw [rtName_len]; omega)]
    by_cases hj2 : j + 1 < 8
    · have hih := ih (j + 1) (by rw [rtName_len]; omega) hsplit.2
      rw [drop_headD_cons (l := rtName) (by rw [rtName_len]; omega)] at hih
      show ((rtName.drop j).headD ' ' == c && isPre (rtName.drop (j + 1)) (c :: cs).tail) = true
      rw [← rtFull_rtName_headD j hj, hsplit.1]
      have : isPre (rtName.drop (j + 1)) cs = true := by
        rw [drop_headD_cons (l := rtName) (by rw [rtName_len]; omega)]
        exact hih
      simpa using this
    · have hnil : rtName.drop (j + 1) = [] := by
        apply List.length_eq_zero.mp
        rw [List.length_drop, rtName_len]
        omega
      show ((rtName.drop j).headD ' ' == c && isPre (rtName.drop (j + 1)) cs) = true
      rw [hnil, ← rtFull_rtName_headD j hj, hsplit.1]
      rfl

theorem rtFull_not_isPre_aptSub {t : List Char} (h : containsStr rtName t = false) :
    isPre rtFull (aptSub t) = false := by
  by_contra hcon
  have hy : isPre rtFull (aptSub t) = true := beq_true_of_ne_false hcon
  have h0 := isPre_drop_aptSub t 0 (by rw [rtName_len]; omega) (by simpa using hy)
  simp only [List.drop_zero] at h0
  have := contains_of_isPre h0
  rw [this] at h
  exact absurd h (by simp)

theorem rtxIns_eq_cons : rtxIns = ';' :: rtFull := rfl

theorem rtxIns_not_isPre_cons {c : Char} {cs : List Char}
    (h : containsStr rtName cs = false) :
    isPre rtxIns (c :: aptSub cs) = false := by
  rw [rtxIns_eq_cons]
  show (';' == c && isPre rtFull (aptSub cs)) = false
  by_cases hc : c = ';'
  · subst hc
    rw [rtFull_not_isPre_aptSub h]
    simp
  · have : (';' == c) = false := by
      rw [beq_eq_false_iff_ne]
      exact fun he => hc he.symm
    simp [this]

theorem rtxIns_block_cond {ds : List Char} (hds : ∀ c ∈ ds, c.isDigit = true)
    (y : List Char) :
    ∀ i, i < (aptTag ++ ds).length → isPre rtxIns ((aptTag ++ ds).drop i ++ y) = false := by
  rw [rtxIns_eq_cons]
  apply isPre_cons_drop_ne
  intro c hc
  rcases List.mem_append.mp hc with h1 | h1
  · exact (by decide : ∀ c ∈ aptTag, ¬c = ';') c h1
  · exact digit_ne_semicolon (hds c h1)

theorem countStr_rtxIns_aptSub :
    ∀ t, containsStr rtName t = false → countStr rtxIns (aptSub t) = countApt t := by
  intro t
  induction t using aptSub.induct with
  | case1 =>
    intro _
    rw [aptSub_nil, countStr_nil, countApt_nil]
  | case2 c cs h ih =>
    intro ht
    have hds := takeDigits_fst_digits (List.drop 4 (c :: cs))
    have hassoc : aptTag ++ (takeDigits (List.drop 4 (c :: cs))).1 ++ rtxIns ++
        aptSub (takeDigits (List.drop 4 (c :: cs))).2 =
        (aptTag ++ (takeDigits (List.drop 4 (c :: cs))).1) ++
          (rtxIns ++ aptSub (takeDigits (List.drop 4 (c :: cs))).2) := by
      simp [List.append_assoc]
    rw [aptSub_cons_pos h, countApt_cons_pos h, hassoc,
      countStr_block _ _ (rtxIns_block_cond hds _),
      countStr_sep (by rw [rtxIns_eq_cons]; simp) _]
    have ht' : containsStr rtName (takeDigits (List.drop 4 (c :: cs))).2 = false := by
      have h4 := contains_drop_false ht 4
      rw [← takeDigits_append (List.drop 4 (c :: cs))] at h4
      exact contains_append_right_false h4
    rw [ih ht']
  | case3 c cs h ih =>
    intro ht
    have htail := (contains_cons_false ht).2
    rw [aptSub_cons_neg h, countApt_cons_neg h,
      countStr_cons_neg (rtxIns_not_isPre_cons htail)]
    exact ih htail

theorem removeAll_rtxIns_aptSub :
    ∀ t, containsStr rtName t = false → removeAll rtxIns (aptSub t) = t := by
  intro t
  induction t using aptSub.induct with
  | case1 =>
    intro _
    rw [aptSub_nil, removeAll, replaceAll_nil]
  | case2 c cs h ih =>
    intro ht
    have hds := takeDigits_fst_digits (List.drop 4 (c :: cs))
    have hassoc : aptTag ++ (takeDigits (List.drop 4 (c :: cs))).1 ++ rtxIns ++
        aptSub (takeDigits (List.drop 4 (c :: cs))).2 =
        (aptTag ++ (takeDigits (List.drop 4 (c :: cs))).1) ++
          (rtxIns ++ aptSub (takeDigits (List.drop 4 (c :: cs))).2) := by
      simp [List.append_assoc]
    have ht' : containsStr rtName (takeDigits (List.drop 4 (c :: cs))).2 = false := by
      have h4 := contains_drop_false ht 4
      rw [← takeDigits_append (List.drop 4 (c :: cs))] at h4
      exact contains_append_right_false h4
    rw [removeAll] at ih ⊢
    rw [aptSub_cons_pos h, hassoc,
      replaceAll_block _ _ (rtxIns_block_cond hds _),
      replaceAll_sep (by rw [rtxIns_eq_cons]; simp) _ _,
      List.nil_append, ih ht']
    have hdec := isPre_decomp h.1
    rw [show aptTag.length = 4 from rfl] at hdec
    calc (aptTag ++ (takeDigits (List.drop 4 (c :: cs))).1) ++
          (takeDigits (List.drop 4 (c :: cs))).2 =
        aptTag ++ ((takeDigits (List.drop 4 (c :: cs))).1 ++
          (takeDigits (List.drop 4 (c :: cs))).2) := by simp [List.append_assoc]
      _ = aptTag ++ List.drop 4 (c :: cs) := by rw [takeDigits_append]
      _ = c :: cs := hdec.symm
  | case3 c cs h ih =>
    intro ht
    have htail := (contains_cons_false ht).2
    rw [removeAll] at ih ⊢
    rw [aptSub_cons_neg h,
      replaceAll_cons_neg [] (rtxIns_not_isPre_cons htail),
      ih htail]

theorem hasApt_cons_iff {c : Char} {cs : List Char} :
    hasApt (c :: cs) = true ↔
      ((isPre aptTag (c :: cs) = true ∧ (takeDigits (List.drop 4 (c :: cs))).1 ≠ []) ∨
        hasApt cs = true) := by
  simp only [hasApt, Bool.or_eq_true, Bool.and_eq_true, Bool.not_eq_true']
  constructor
  · rintro (⟨h1, h2⟩ | h1)
    · refine Or.inl ⟨h1, ?_⟩
      intro he
      rw [he] at h2
      exact absurd h2 (by decide)
    · exact Or.inr h1
  · rintro (⟨h1, h2⟩ | h1)
    · refine Or.inl ⟨h1, ?_⟩
      cases hx : (takeDigits (List.drop 4 (c :: cs))).1 with
      | nil => exact absurd hx h2
      | cons a as => rfl
    · exact Or.inr h1

theorem hasRtx_cons_iff {c : Char} {cs : List Char} :
    hasRtx (c :: cs) = true ↔
      ((isPre rtHeader (c :: cs) = true ∧ (takeDigits (List.drop 9 (c :: cs))).1 ≠ []) ∨
        hasRtx cs = true) := by
  simp only [hasRtx, Bool.or_eq_true, Bool.and_eq_true, Bool.not_eq_true']
  constructor
  · rintro (⟨h1, h2⟩ | h1)
    · refine Or.inl ⟨h1, ?_⟩
      intro he
      rw [he] at h2
      exact absurd h2 (by decide)
    · exact Or.inr h1
  · rintro (⟨h1, h2⟩ | h1)
    · refine Or.inl ⟨h1, ?_⟩
      cases hx : (takeDigits (List.drop 9 (c :: cs))).1 with
      | nil => exact absurd hx h2
      | cons a as => rfl
    · exact Or.inr h1

theorem hasApt_false_cases {c : Char} {cs : List Char} (h : hasApt (c :: cs) = false) :
    ¬(isPre aptTag (c :: cs) = true ∧ (takeDigits (List.drop 4 (c :: cs))).1 ≠ []) ∧
      hasApt cs = false := by
  constructor
  · intro hc
    have : hasApt (c :: cs) = true := hasApt_cons_iff.mpr (Or.inl hc)
    rw [this] at h
    exact absurd h (by simp)
  · cases hx : hasApt cs
    · rfl
    · have : hasApt (c :: cs) = true := hasApt_cons_iff.mpr (Or.inr hx)
      rw [this] at h
      exact absurd h (by simp)

theorem hasRtx_false_cases {c : Char} {cs : List Char} (h : hasRtx (c :: cs) = false) :
    ¬(isPre rtHeader (c :: cs) = true ∧ (takeDigits (List.drop 9 (c :: cs))).1 ≠ []) ∧
      hasRtx cs = false := by
  constructor
  · intro hc
    have : hasRtx (c :: cs) = true := hasRtx_cons_iff.mpr (Or.inl hc)
    rw [this] at h
    exact absurd h (by simp)
  · cases hx : hasRtx cs
    · rfl
    · have : hasRtx (c :: cs) = true := hasRtx_cons_iff.mpr (Or.inr hx)
      rw [this] at h
      exact absurd h (by simp)

theorem aptSub_id : ∀ t, hasApt t = false → aptSub t = t := by
  intro t
  induction t using aptSub.induct with
  | case1 => intro _; exact aptSub_nil
  | case2 c cs hc ih =>
    intro h
    exact absurd hc (hasApt_false_cases h).1
  | case3 c cs hc ih =>
    intro h
    rw [aptSub_cons_neg hc, ih (hasApt_false_cases h).2]

theorem rtxSub_id : ∀ t, hasRtx t = false → rtxSub t = t := by
  intro t
  induction t using rtxSub.induct with
  | case1 => intro _; exact rtxSub_nil
  | case2 c cs hc ih =>
    intro h
    exact absurd hc (hasRtx_false_cases h).1
  | case3 c cs hc ih =>
    intro h
    rw [rtxSub_cons_neg hc, ih (hasRtx_false_cases h).2]

theorem contains_rtFull_aptSub : ∀ t, hasApt t = true → containsStr rtFull (aptSub t) = true := by
  intro t
  induction t using aptSub.induct with
  | case1 =>
    intro h
    exact absurd h (by simp [hasApt])
  | case2 c cs hc ih =>
    intro _
    rw [aptSub_cons_pos hc]
    refine (containsStr_iff _ _).mpr
      ⟨aptTag ++ (takeDigits (List.drop 4 (c :: cs))).1 ++ [';'],
        aptSub (takeDigits (List.drop 4 (c :: cs))).2, ?_⟩
    rw [rtxIns_eq_cons]
    simp [List.append_assoc]
  | case3 c cs hc ih =>
    intro h
    have h' : hasApt cs = true := by
      rcases hasApt_cons_iff.mp h with h1 | h1
      · exact absurd h1 hc
      · exact h1
    rw [aptSub_cons_neg hc]
    exact contains_cons_of_tail (ih h')

theorem contains_rtFull_rtxSub : ∀ t, hasRtx t = true → containsStr rtFull (rtxSub t) = true := by
  intro t
  induction t using rtxSub.induct with
  | case1 =>
    intro h
    exact absurd h (by simp [hasRtx])
  | case2 c cs hc ih =>
    intro _
    rw [rtxSub_cons_pos hc]
    exact contains_of_isPre (isPre_refl_append rtFull _)
  | case3 c cs hc ih =>
    intro h
    have h' : hasRtx cs = true := by
      rcases hasRtx_cons_iff.mp h with h1 | h1
      · exact absurd h1 hc
      · exact h1
    rw [rtxSub_cons_neg hc]
    exact contains_cons_of_tail (ih h')

theorem rtName_isPre_rtFull : isPre rtName rtFull = true := by decide

theorem rtxStep_idem (t : List Char) : rtxStep (rtxStep t) = rtxStep t := by
  by_cases h1 : containsStr rtName t = false
  · rw [show rtxStep t = aptSub t from by rw [rtxStep, if_pos h1]]
    cases h2 : hasApt t
    · rw [aptSub_id t h2, rtxStep, if_pos h1]
      exact aptSub_id t h2
    · have hcf : containsStr rtFull (aptSub t) = true := contains_rtFull_aptSub t h2
      have hcn : containsStr rtName (aptSub t) = true :=
        contains_mono_pre rtName_isPre_rtFull hcf
      rw [rtxStep, if_neg (by rw [hcn]; simp), if_neg (by rw [hcf]; simp)]
  · have h1' : containsStr rtName t = true := beq_true_of_ne_false h1
    by_cases h2 : containsStr rtFull t = false
    · rw [show rtxStep t = rtxSub t from by
        rw [rtxStep, if_neg (by rw [h1']; simp), if_pos h2]]
      cases h3 : hasRtx t
      · rw [rtxSub_id t h3, rtxStep, if_neg (by rw [h1']; simp), if_pos h2]
        exact rtxSub_id t h3
      · have hcf : containsStr rtFull (rtxSub t) = true := contains_rtFull_rtxSub t h3
        have hcn : containsStr rtName (rtxSub t) = true :=
          contains_mono_pre rtName_isPre_rtFull hcf
        rw [rtxStep, if_neg (by rw [hcn]; simp), if_neg (by rw [hcf]; simp)]
    · have h2' : containsStr rtFull t = true := beq_true_of_ne_false h2
      rw [show rtxStep t = t from by
        rw [rtxStep, if_neg (by rw [h1']; simp), if_neg (by rw [h2']; simp)]]
      rw [rtxStep, if_neg (by rw [h1']; simp), if_neg (by rw [h2']; simp)]

/-- Whether the pattern `apt=\d+` matches at the start of the text (used
to phrase leftmostness hypotheses about decompositions). -/
def aptHere (t : List Char) : Bool :=
  isPre aptTag t && !(takeDigits (List.drop 4 t)).1.isEmpty

/-- Whether the pattern `rtx-time=\d+` matches at the start of the text. -/
def rtxHere (t : List Char) : Bool :=
  isPre rtHeader t && !(takeDigits (List.drop 9 t)).1.isEmpty

theorem aptHere_false_not {w : List Char} (h : aptHere w = false) :
    ¬(isPre aptTag w = true ∧ (takeDigits (List.drop 4 w)).1 ≠ []) := by
  rintro ⟨h1, h2⟩
  rw [aptHere, h1] at h
  simp only [Bool.true_and, Bool.not_eq_false'] at h
  cases hx : (takeDigits (List.drop 4 w)).1 with
  | nil => exact h2 hx
  | cons a as =>
    rw [hx] at h
    exact absurd h (by simp)

theorem rtxHere_false_not {w : List Char} (h : rtxHere w = false) :
    ¬(isPre rtHeader w = true ∧ (takeDigits (List.drop 9 w)).1 ≠ []) := by
  rintro ⟨h1, h2⟩
  rw [rtxHere, h1] at h
  simp only [Bool.true_and, Bool.not_eq_false'] at h
  cases hx : (takeDigits (List.drop 9 w)).1 with
  | nil => exact h2 hx
  | cons a as =>
    rw [hx] at h
    exact absurd h (by simp)

theorem takeDigits_exact : ∀ {ds : List Char}, ∀ (v : List Char),
    (∀ c ∈ ds, c.isDigit = true) → (∀ c ∈ v.take 1, c.isDigit = false) →
    takeDigits (ds ++ v) = (ds, v) := by
  intro ds
  induction ds with
  | nil =>
    intro v _ hv
    cases v with
    | nil => rfl
    | cons d vs =>
      have hd : d.isDigit = false := hv d (by simp)
      simp [takeDigits, hd]
  | cons d ds' ih =>
    intro v hdig hv
    have hd : d.isDigit = true := hdig d (by simp)
    have := ih v (fun c hc => hdig c (by simp [hc])) hv
    simp [takeDigits, hd, this]

theorem aptSub_at_match {rest : List Char} (h2 : (takeDigits rest).1 ≠ []) :
    aptSub (aptTag ++ rest) =
      aptTag ++ (takeDigits rest).1 ++ rtxIns ++ aptSub (takeDigits rest).2 := by
  have hc : isPre aptTag ('a' :: 'p' :: 't' :: '=' :: rest) = true :=
    isPre_refl_append aptTag rest
  have hd : (takeDigits (List.drop 4 ('a' :: 'p' :: 't' :: '=' :: rest))).1 ≠ [] := h2
  rw [show aptTag ++ rest = 'a' :: 'p' :: 't' :: '=' :: rest from rfl]
  rw [aptSub_cons_pos ⟨hc, hd⟩]
  rfl

theorem rtxSub_at_match {rest : List Char} (h2 : (takeDigits rest).1 ≠ []) :
    rtxSub (rtHeader ++ rest) = rtFull ++ rtxSub (takeDigits rest).2 := by
  have hc : isPre rtHeader
      ('r' :: 't' :: 'x' :: '-' :: 't' :: 'i' :: 'm' :: 'e' :: '=' :: rest) = true :=
    isPre_refl_append rtHeader rest
  have hd : (takeDigits (List.drop 9
      ('r' :: 't' :: 'x' :: '-' :: 't' :: 'i' :: 'm' :: 'e' :: '=' :: rest))).1 ≠ [] := h2
  rw [show rtHeader ++ rest =
    'r' :: 't' :: 'x' :: '-' :: 't' :: 'i' :: 'm' :: 'e' :: '=' :: rest from rfl]
  rw [rtxSub_cons_pos ⟨hc, hd⟩]
  rfl

theorem aptSub_decomp :
    ∀ (u : List Char) {ds v : List Char}, ds ≠ [] →
      (∀ c ∈ ds, c.isDigit = true) →
      (∀ c ∈ v.take 1, c.isDigit = false) →
      (∀ i, i < u.length → aptHere (u.drop i ++ aptTag ++ ds ++ v) = false) →
      aptSub (u ++ aptTag ++ ds ++ v) = u ++ aptTag ++ ds ++ rtxIns ++ aptSub v := by
  intro u
  induction u with
  | nil =>
    intro ds v hds hdig hv _
    simp only [List.nil_append, List.append_assoc]
    have htd : takeDigits (ds ++ v) = (ds, v) := takeDigits_exact v hdig hv
    rw [aptSub_at_match (by rw [htd]; exact hds), htd]
    simp [List.append_assoc]
  | cons c u' ih =>
    intro ds v hds hdig hv hu
    have h0 : aptHere ((c :: u') ++ aptTag ++ ds ++ v) = false := by
      have := hu 0 (by simp)
      simpa using this
    simp only [List.cons_append] at h0 ⊢
    rw [aptSub_cons_neg (aptHere_false_not h0)]
    have hu' : ∀ i, i < u'.length → aptHere (u'.drop i ++ aptTag ++ ds ++ v) = false := by
      intro i hi
      have := hu (i + 1) (by simpa using Nat.succ_lt_succ hi)
      simpa [List.drop_succ_cons] using this
    have := ih hds hdig hv hu'
    simp only [List.append_assoc] at this ⊢
    rw [this]

theorem rtxSub_decomp :
    ∀ (u : List Char) {ds v : List Char}, ds ≠ [] →
      (∀ c ∈ ds, c.isDigit = true) →
      (∀ c ∈ v.take 1, c.isDigit = false) →
      (∀ i, i < u.length → rtxHere (u.drop i ++ rtHeader ++ ds ++ v) = false) →
      rtxSub (u ++ rtHeader ++ ds ++ v) = u ++ rtFull ++ rtxSub v := by
  intro u
  induction u with
  | nil =>
    intro ds v hds hdig hv _
    simp only [List.nil_append, List.append_assoc]
    have htd : takeDigits (ds ++ v) = (ds, v) := takeDigits_exact v hdig hv
    rw [rtxSub_at_match (by rw [htd]; exact hds), htd]
  | cons c u' ih =>
    intro ds v hds hdig hv hu
    have h0 : rtxHere ((c :: u') ++ rtHeader ++ ds ++ v) = false := by
      have := hu 0 (by simp)
      simpa using this
    simp only [List.cons_append] at h0 ⊢
    rw [rtxSub_cons_neg (rtxHere_false_not h0)]
    have hu' : ∀ i, i < u'.length → rtxHere (u'.drop i ++ rtHeader ++ ds ++ v) = false := by
      intro i hi
      have := hu (i + 1) (by simpa using Nat.succ_lt_succ hi)
      simpa [List.drop_succ_cons] using this
    have := ih hds hdig hv hu'
    simp only [List.append_assoc] at this ⊢
    rw [this]

instance {e a : Type} [DecidableEq e] [DecidableEq a] : DecidableEq (Except e a) :=
  fun x y =>
    match x, y with
    | .error e1, .error e2 =>
      if h : e1 = e2 then isTrue (by rw [h])
      else isFalse (fun hc => h (by injection hc))
    | .ok a1, .ok a2 =>
      if h : a1 = a2 then isTrue (by rw [h])
      else isFalse (fun hc => h (by injection hc))
    | .error _, .ok _ => isFalse (fun hc => Except.noConfusion hc)
    | .ok _, .error _ => isFalse (fun hc => Except.noConfusion hc)

/-- Claim C1, as stated, is false at the pre-start state: before the
session starts there is no transport element, and `set_sdp` with type
`"offer"` then fails with the invalid-state error
(`'Received SDP before session started'`), not with `ProtocolError`;
the state check on line 163 runs before the type check on line 166. -/
theorem claim_C1_counterexample :
    set_sdp (initialState (some "x264enc".data)) "offer".data "v=0".data =
      [Event.errorRaised AppError.invalidStateError] ∧
    set_sdp (initialState (some "x264enc".data)) "offer".data "v=0".data ≠
      [Event.errorRaised AppError.protocolError] := by
  decide

/-- Claim C1 (amended): calling `set_sdp` with sdp type `"offer"` always
fails, but the error class depends on the session state: it is
`ProtocolError` when the transport element exists and
`InvalidStateError` when it does not, because the existence check
precedes the wrong-type check. -/
theorem claim_C1 (s : AppState) (sdp : List Char) :
    set_sdp s "offer".data sdp =
      (if s.webrtcbin then [Event.errorRaised AppError.protocolError]
        else [Event.errorRaised AppError.invalidStateError]) := by
  have hne : "offer".data ≠ "answer".data := by decide
  cases hw : s.webrtcbin
  · simp [set_sdp, hw]
  · simp [set_sdp, hw, hne]

/-- Claim C2, as stated, is false: on a fully started session,
`stop_pipeline` releases the pipeline container first and the discard
sink last, so the discard sink is not the first handle torn down. -/
theorem claim_C2_counterexample :
    (stop_pipeline ⟨true, true, true, some "x264enc".data⟩).2 =
      [Event.releasePipeline, Event.releaseWebrtcbin, Event.releaseFakesink] ∧
    (stop_pipeline ⟨true, true, true, some "x264enc".data⟩).2.head? ≠
      some Event.releaseFakesink := by
  decide

/-- Claim C2 (amended): `stop_pipeline` releases exactly the handles
that are present, in the source order pipeline container first, then the
transport element, then the discard sink; every handle field is null
afterwards, so no released handle can be reused. -/
theorem claim_C2 (s : AppState) :
    (stop_pipeline s).2 =
      (if s.pipeline then [Event.releasePipeline] else []) ++
        (if s.webrtcbin then [Event.releaseWebrtcbin] else []) ++
        (if s.fakesink then [Event.releaseFakesink] else []) ∧
    (stop_pipeline s).1.pipeline = false ∧
    (stop_pipeline s).1.webrtcbin = false ∧
    (stop_pipeline s).1.fakesink = false ∧
    (stop_pipeline s).1.encoder = s.encoder := by
  obtain ⟨p, w, f, e⟩ := s
  cases p <;> cases w <;> cases f <;> simp [stop_pipeline]

/-- Claim C9: `stop_pipeline` is total (its embedding raises nothing)
and idempotent: after one call every handle is null, and a second call
changes nothing and emits no engine interaction, from any state
including the pre-start one. -/
theorem claim_C9 (s : AppState) :
    stop_pipeline (stop_pipeline s).1 = ((stop_pipeline s).1, []) ∧
    (stop_pipeline s).1.pipeline = false ∧
    (stop_pipeline s).1.webrtcbin = false ∧
    (stop_pipeline s).1.fakesink = false := by
  obtain ⟨p, w, f, e⟩ := s
  cases p <;> cases w <;> cases f <;> simp [stop_pipeline]

/-- Claim C8: `set_ice` fails with `InvalidStateError` whenever the
transport element does not exist (in particular before `start`), and
once it exists the `(mlineindex, candidate)` pair is forwarded to the
engine unconditionally, with no validation of either component. -/
theorem claim_C8 (s : AppState) (m : Nat) (c : List Char) :
    set_ice s m c =
      (if s.webrtcbin then [Event.addIceCandidate m c]
        else [Event.errorRaised AppError.invalidStateError]) := by
  cases hw : s.webrtcbin <;> simp [set_ice, hw]

/-- Claim C3: when any required plugin is missing from the registry, the
session startup entry (controller construction followed by
`start_pipeline`) fails with `ConfigurationError` carrying exactly the
list of missing required names, and performs no engine interaction, so
no pipeline or pipeline element is created.  In the source the check
runs in `__init__` via `check_plugins`, so `start_pipeline` is never
reached. -/
theorem claim_C3 (registry : List (List Char)) (encoder : Option (List Char))
    (stateOk : Bool)
    (h : requiredPlugins.filter (fun p => !registry.contains p) ≠ []) :
    startEntry registry encoder stateOk =
      ([], Except.error (AppError.configurationError
        (requiredPlugins.filter (fun p => !registry.contains p)))) := by
  have hne : (requiredPlugins.filter (fun p => !registry.contains p)).isEmpty = false := by
    cases hx : requiredPlugins.filter (fun p => !registry.contains p) with
    | nil => exact absurd hx h
    | cons a as => rfl
  have hcp : check_plugins registry =
      some (AppError.configurationError
        (requiredPlugins.filter (fun p => !registry.contains p))) := by
    show (if (requiredPlugins.filter (fun p => !registry.contains p)).isEmpty = true
        then none
        else some (AppError.configurationError
          (requiredPlugins.filter (fun p => !registry.contains p)))) =
      some (AppError.configurationError
        (requiredPlugins.filter (fun p => !registry.contains p)))
    rw [hne]
    simp
  have hinit : initApp registry encoder =
      Except.error (AppError.configurationError
        (requiredPlugins.filter (fun p => !registry.contains p))) := by
    unfold initApp
    rw [hcp]
  unfold startEntry
  rw [hinit]

/-- Witness for C3: with a registry that lacks exactly `opus`, startup
fails with `ConfigurationError ["opus"]` and an empty interaction
trace. -/
theorem claim_C3_witness :
    requiredPlugins.filter
        (fun p => !(["nice".data, "webrtc".data, "dtls".data, "srtp".data, "rtp".data,
          "sctp".data, "rtpmanager".data] : List (List Char)).contains p) ≠ [] ∧
    startEntry ["nice".data, "webrtc".data, "dtls".data, "srtp".data, "rtp".data,
        "sctp".data, "rtpmanager".data] (some "x264enc".data) true =
      ([], Except.error (AppError.configurationError ["opus".data])) := by
  constructor
  · decide
  · exact (claim_C3 ["nice".data, "webrtc".data, "dtls".data, "srtp".data, "rtp".data,
      "sctp".data, "rtpmanager".data] (some "x264enc".data) true (by decide)).trans
      (by decide)

/-- Claim C10: with the default `encoder=None`, the offer handler
applies the local description and then crashes with Python's
`TypeError` when `'264' in self.encoder` is evaluated, so `on_sdp` is
never invoked; with any string encoder the handler completes and emits
`on_sdp` with the post-processed text. -/
theorem claim_C10 (s : AppState) (sdp : List Char) :
    (s.encoder = none →
      on_offer_created s sdp =
        [Event.setLocalDescription, Event.errorRaised AppError.typeError]) ∧
    (∀ e, s.encoder = some e →
      on_offer_created s sdp =
        [Event.setLocalDescription,
          Event.onSdp "offer".data (h264Step e (rtxStep sdp))]) := by
  constructor
  · intro h
    simp [on_offer_created, processOffer, h]
  · intro e h
    simp [on_offer_created, processOffer, h]

/-- Witness for C10 at a concrete pre-start state with `encoder=None`
and a concrete SDP text. -/
theorem claim_C10_witness :
    (initialState none).encoder = none ∧
    on_offer_created (initialState none) "v=0 x".data =
      [Event.setLocalDescription, Event.errorRaised AppError.typeError] :=
  ⟨rfl, (claim_C10 (initialState none) "v=0 x".data).1 rfl⟩

/-- Claim C7, as stated, is false: the code lets a remote description be
applied with no prior local offer.  After `start` alone (no
negotiation-needed round yet), `set_sdp` with a well-typed answer
succeeds and emits `set-remote-description`, while no
`set-local-description` was ever emitted in the trace. -/
theorem claim_C7_counterexample :
    Event.setRemoteDescription ∈
      (runTrace (initialState (some "x264enc".data))
        [HostAction.start true, HostAction.setRemoteSdp "answer".data "v=0".data]).2 ∧
    Event.setLocalDescription ∉
      (runTrace (initialState (some "x264enc".data))
        [HostAction.start true, HostAction.setRemoteSdp "answer".data "v=0".data]).2 := by
  decide

/-- Claim C7 (amended): in every offer round the handler emits
`set-local-description` strictly before the `on_sdp` emission; and a
remote description is only applied when the transport element exists —
the code checks only transport existence, not that a local offer was
previously applied. -/
theorem claim_C7 :
    (∀ (s : AppState) (sdp : List Char) (i : Nat) (ty tx : List Char),
      (on_offer_created s sdp).get? i = some (Event.onSdp ty tx) →
        ∃ j, j < i ∧ (on_offer_created s sdp).get? j = some Event.setLocalDescription) ∧
    (∀ (s : AppState) (ty sdp : List Char),
      Event.setRemoteDescription ∈ set_sdp s ty sdp → s.webrtcbin = true) := by
  constructor
  · intro s sdp i ty tx h
    cases hp : processOffer s.encoder sdp with
    | error e =>
      have hl : on_offer_created s sdp =
          [Event.setLocalDescription, Event.errorRaised e] := by
        unfold on_offer_created
        rw [hp]
      rw [hl] at h ⊢
      match i with
      | 0 => simp at h
      | 1 => simp at h
      | n + 2 => simp at h
    | ok t =>
      have hl : on_offer_created s sdp =
          [Event.setLocalDescription, Event.onSdp "offer".data t] := by
        unfold on_offer_created
        rw [hp]
      rw [hl] at h ⊢
      match i with
      | 0 => simp at h
      | 1 => exact ⟨0, by omega, rfl⟩
      | n + 2 => simp at h
  · intro s ty sdp h
    cases hw : s.webrtcbin
    · rw [set_sdp] at h
      simp [hw] at h
    · rfl

/-- Witness for the first part of C7 at a concrete state and SDP text:
the `on_sdp` emission sits at index 1 and `set-local-description` at an
earlier index. -/
theorem claim_C7_witness :
    (on_offer_created (initialState (some "vp8enc".data)) "v=0 m".data).get? 1 =
      some (Event.onSdp "offer".data "v=0 m".data) ∧
    (∃ j, j < 1 ∧
      (on_offer_created (initialState (some "vp8enc".data)) "v=0 m".data).get? j =
        some Event.setLocalDescription) ∧
    Event.setRemoteDescription ∈
      set_sdp ⟨true, true, false, some "vp8enc".data⟩ "answer".data "v=0".data ∧
    (⟨true, true, false, some "vp8enc".data⟩ : AppState).webrtcbin = true := by
  have h1 : rtxStep "v=0 m".data = "v=0 m".data := by
    rw [rtxStep, if_pos (by decide)]
    exact aptSub_id _ (by decide)
  have h2 : h264Step "vp8enc".data "v=0 m".data = "v=0 m".data := by
    rw [h264Step, if_neg (by decide)]
  have hp : processOffer (some "vp8enc".data) "v=0 m".data = Except.ok "v=0 m".data := by
    show Except.ok (h264Step "vp8enc".data (rtxStep "v=0 m".data)) = Except.ok "v=0 m".data
    rw [h1, h2]
  have he : on_offer_created (initialState (some "vp8enc".data)) "v=0 m".data =
      [Event.setLocalDescription, Event.onSdp "offer".data "v=0 m".data] := by
    unfold on_offer_created
    rw [show (initialState (some "vp8enc".data)).encoder = some "vp8enc".data from rfl, hp]
  exact ⟨by rw [he]; rfl,
    claim_C7.1 _ _ 1 "offer".data "v=0 m".data (by rw [he]; rfl),
    by decide,
    claim_C7.2 ⟨true, true, false, some "vp8enc".data⟩ "answer".data "v=0".data (by decide)⟩

/-- Claim C4: for every SDP text that lacks the substring `rtx-time`,
the rtx-time post-processing step inserts exactly one `;rtx-time=125`
per match of `apt=\d+` (the occurrence count of `;rtx-time=125` in the
output equals the number of `apt=<n>` matches of the input), leaves the
rest of the text unchanged (erasing the inserted occurrences restores
the input exactly), and places each insertion immediately after its
`apt=<n>` occurrence (the decomposition conjunct: at a leftmost match
the matched token is reproduced and `;rtx-time=125` follows it
directly). -/
theorem claim_C4 :
    (∀ t : List Char, containsStr rtName t = false →
      countStr rtxIns (rtxStep t) = countApt t ∧ removeAll rtxIns (rtxStep t) = t) ∧
    (∀ (u ds v : List Char), ds ≠ [] → (∀ c ∈ ds, c.isDigit = true) →
      (∀ c ∈ v.take 1, c.isDigit = false) →
      (∀ i, i < u.length → aptHere (u.drop i ++ aptTag ++ ds ++ v) = false) →
      containsStr rtName (u ++ aptTag ++ ds ++ v) = false →
      rtxStep (u ++ aptTag ++ ds ++ v) = u ++ aptTag ++ ds ++ rtxIns ++ aptSub v) := by
  constructor
  · intro t ht
    rw [show rtxStep t = aptSub t from by rw [rtxStep, if_pos ht]]
    exact ⟨countStr_rtxIns_aptSub t ht, removeAll_rtxIns_aptSub t ht⟩
  · intro u ds v h1 h2 h3 h4 h5
    rw [show rtxStep (u ++ aptTag ++ ds ++ v) = aptSub (u ++ aptTag ++ ds ++ v) from by
      rw [rtxStep, if_pos h5]]
    exact aptSub_decomp u h1 h2 h3 h4

/-- Witness for C4 on a concrete SDP fragment with one `apt=` match,
and for the decomposition conjunct at a concrete leftmost match. -/
theorem claim_C4_witness :
    containsStr rtName "a=fmtp:97 apt=96".data = false ∧
    (countStr rtxIns (rtxStep "a=fmtp:97 apt=96".data) = countApt "a=fmtp:97 apt=96".data ∧
      removeAll rtxIns (rtxStep "a=fmtp:97 apt=96".data) = "a=fmtp:97 apt=96".data) ∧
    rtxStep ("a ".data ++ aptTag ++ "96".data ++ " b".data) =
      "a ".data ++ aptTag ++ "96".data ++ rtxIns ++ aptSub " b".data :=
  ⟨by decide, claim_C4.1 "a=fmtp:97 apt=96".data (by decide),
    claim_C4.2 "a ".data "96".data " b".data (by decide) (by decide) (by decide)
      (by decide) (by decide)⟩

/-- Claim C5, as stated, is false: on a text that contains both
`rtx-time=90` and `rtx-time=125`, the replacement branch is skipped
(because the substring `rtx-time=125` is already present), so the
occurrence `rtx-time=90`, whose value differs from 125, survives
post-processing untouched. -/
theorem claim_C5_counterexample :
    rtxStep "a=fmtp:97 rtx-time=90;rtx-time=125".data =
      "a=fmtp:97 rtx-time=90;rtx-time=125".data ∧
    containsStr "rtx-time=90".data
      (rtxStep "a=fmtp:97 rtx-time=90;rtx-time=125".data) = true := by
  have h : rtxStep "a=fmtp:97 rtx-time=90;rtx-time=125".data =
      "a=fmtp:97 rtx-time=90;rtx-time=125".data := by
    rw [rtxStep, if_neg (by decide), if_neg (by decide)]
  exact ⟨h, by rw [h]; decide⟩

/-- Claim C5 (amended): the rewrite branch fires only on texts that
contain `rtx-time` but not the substring `rtx-time=125`; on such texts
it is `re.sub(r'rtx-time=\d+', r'rtx-time=125', ...)`, which rewrites
every `rtx-time=<n>` match to `rtx-time=125` (decomposition conjunct);
and the whole rtx-time post-processing step is idempotent on every
text. -/
theorem claim_C5 :
    (∀ t, containsStr rtName t = true → containsStr rtFull t = false →
      rtxStep t = rtxSub t) ∧
    (∀ (u ds v : List Char), ds ≠ [] → (∀ c ∈ ds, c.isDigit = true) →
      (∀ c ∈ v.take 1, c.isDigit = false) →
      (∀ i, i < u.length → rtxHere (u.drop i ++ rtHeader ++ ds ++ v) = false) →
      rtxSub (u ++ rtHeader ++ ds ++ v) = u ++ rtFull ++ rtxSub v) ∧
    (∀ t, rtxStep (rtxStep t) = rtxStep t) := by
  refine ⟨?_, ?_, rtxStep_idem⟩
  · intro t h1 h2
    rw [rtxStep, if_neg (by rw [h1]; simp), if_pos h2]
  · intro u ds v h1 h2 h3 h4
    exact rtxSub_decomp u h1 h2 h3 h4

/-- Witness for C5 on a concrete text with a non-125 rtx-time value,
and for the decomposition conjunct at a concrete match. -/
theorem claim_C5_witness :
    containsStr rtName "x rtx-time=90 y".data = true ∧
    containsStr rtFull "x rtx-time=90 y".data = false ∧
    rtxStep "x rtx-time=90 y".data = rtxSub "x rtx-time=90 y".data ∧
    rtxSub ("x ".data ++ rtHeader ++ "90".data ++ " y".data) =
      "x ".data ++ rtFull ++ rtxSub " y".data :=
  ⟨by decide, by decide,
    claim_C5.1 "x rtx-time=90 y".data (by decide) (by decide),
    claim_C5.2.1 "x ".data "90".data " y".data (by decide) (by decide) (by decide)
      (by decide)⟩

theorem profKey_isPre_profRepl : isPre profKey profRepl = true := by decide

theorem profKey_noCross :
    ∀ j, j < profKey.length → 1 ≤ j → isPre (profKey.drop j) profRepl = false := by
  decide

/-- Claim C6, as stated, is false: when the input also lacks
`level-asymmetry-allowed` (as in this concrete offer), the second
injection rewrites each occurrence to
`profile-level-id=42e01f;level-asymmetry-allowed=1;packetization-mode=1`,
so the final post-processed output contains zero occurrences of the
literal `profile-level-id=42e01f;packetization-mode=1` although the
original text has one `packetization-mode=1` occurrence. -/
theorem claim_C6_counterexample :
    containsStr "264".data "x264enc".data = true ∧
    containsStr profKey "a=fmtp:96 packetization-mode=1".data = false ∧
    processOffer (some "x264enc".data) "a=fmtp:96 packetization-mode=1".data =
      Except.ok
        "a=fmtp:96 profile-level-id=42e01f;level-asymmetry-allowed=1;packetization-mode=1".data ∧
    countStr profRepl
      "a=fmtp:96 profile-level-id=42e01f;level-asymmetry-allowed=1;packetization-mode=1".data
      = 0 ∧
    countStr pm1 "a=fmtp:96 packetization-mode=1".data = 1 := by
  have h1 : rtxStep "a=fmtp:96 packetization-mode=1".data =
      "a=fmtp:96 packetization-mode=1".data := by
    rw [rtxStep, if_pos (by decide)]
    exact aptSub_id _ (by decide)
  have hrepl1 : replaceAll pm1 profRepl "a=fmtp:96 packetization-mode=1".data =
      "a=fmtp:96 profile-level-id=42e01f;packetization-mode=1".data := by
    have he := replaceAllAux_eq pm1 profRepl "a=fmtp:96 packetization-mode=1".data 0
    rw [List.drop_zero] at he
    rw [← he]
    decide
  have hrepl2 : replaceAll pm1 asymRepl
      "a=fmtp:96 profile-level-id=42e01f;packetization-mode=1".data =
      "a=fmtp:96 profile-level-id=42e01f;level-asymmetry-allowed=1;packetization-mode=1".data := by
    have he := replaceAllAux_eq pm1 asymRepl
      "a=fmtp:96 profile-level-id=42e01f;packetization-mode=1".data 0
    rw [List.drop_zero] at he
    rw [← he]
    decide
  have hstep : h264Step "x264enc".data "a=fmtp:96 packetization-mode=1".data =
      "a=fmtp:96 profile-level-id=42e01f;level-asymmetry-allowed=1;packetization-mode=1".data := by
    rw [h264Step, if_pos (by decide), profInject, if_neg (by decide), hrepl1,
      asymInject, if_neg (by decide), hrepl2]
  refine ⟨by decide, by decide, ?_, ?_, ?_⟩
  · show Except.ok (h264Step "x264enc".data
      (rtxStep "a=fmtp:96 packetization-mode=1".data)) = _
    rw [h1, hstep]
  · have he := countStrAux_eq profRepl
      "a=fmtp:96 profile-level-id=42e01f;level-asymmetry-allowed=1;packetization-mode=1".data 0
    rw [List.drop_zero] at he
    rw [← he]
    decide
  · have he := countStrAux_eq pm1 "a=fmtp:96 packetization-mode=1".data 0
    rw [List.drop_zero] at he
    rw [← he]
    decide

/-- Claim C6 (amended): for an H.264-family encoder and a text lacking
`profile-level-id`, the H.264 block is the profile injection followed by
the asymmetry injection, and the output of the profile-level-id
injection step contains exactly one
`profile-level-id=42e01f;packetization-mode=1` per `packetization-mode=1`
occurrence of its input; the subsequent level-asymmetry injection, when
it fires, splits each such literal by inserting
`level-asymmetry-allowed=1;` in front of `packetization-mode=1`. -/
theorem claim_C6 (encoder t : List Char)
    (henc : containsStr "264".data encoder = true)
    (hprof : containsStr profKey t = false) :
    h264Step encoder t = asymInject (profInject t) ∧
    countStr profRepl (profInject t) = countStr pm1 t := by
  constructor
  · rw [h264Step, if_pos henc]
  · rw [profInject, if_neg (by rw [hprof]; simp)]
    exact countStr_replaceAll (by decide) profKey_isPre_profRepl profKey_noCross t hprof

/-- Witness for C6 at a concrete encoder and offer text. -/
theorem claim_C6_witness :
    containsStr "264".data "x264enc".data = true ∧
    containsStr profKey "m=video packetization-mode=1".data = false ∧
    (h264Step "x264enc".data "m=video packetization-mode=1".data =
        asymInject (profInject "m=video packetization-mode=1".data) ∧
      countStr profRepl (profInject "m=video packetization-mode=1".data) =
        countStr pm1 "m=video packetization-mode=1".data) :=
  ⟨by decide, by decide,
    claim_C6 "x264enc".data "m=video packetization-mode=1".data (by decide) (by decide)⟩
